/- Verification of the GPAI grounding pipeline against its specification:
   the token chunker (backend/ingest.py), the retriever with priority/trust
   reranking (backend/retrieve.py), the solution parser (backend/generator.py)
   and the step validator (backend/validator.py).

   Python strings are modelled as lists of characters (`Str`), since the
   Python text operations the code uses (strip, lower, split, substring
   search) are re-implemented here character by character.  Real-valued
   scores (cosine similarities, distances, boost weights) are modelled as
   rationals.  External capabilities (the embedding model, the vector
   store, numpy argmax, the tokenizer, sympy) enter as parameters or, where
   a claim needs a concrete instance, as definitions marked as modelled
   from the spec. -/
import Mathlib

namespace GPAI

/-- Python strings, modelled as lists of characters. -/
abbrev Str := List Char

/-- Python `str.strip()`: remove leading and trailing whitespace. -/
def pyStrip (s : Str) : Str :=
  ((s.dropWhile Char.isWhitespace).reverse.dropWhile Char.isWhitespace).reverse

/-- Python `str.lower()` (ASCII case folding). -/
def pyLower (s : Str) : Str := s.map Char.toLower

/-- Worker for `pySplitWS`; `cur` is the current word, reversed. -/
def splitWSGo (cur : Str) : Str → List Str
  | [] => if cur.isEmpty then [] else [cur.reverse]
  | c :: rest =>
    if c.isWhitespace then
      if cur.isEmpty then splitWSGo [] rest else cur.reverse :: splitWSGo [] rest
    else splitWSGo (c :: cur) rest

/-- Python `str.split()` with no argument: split on runs of whitespace,
discarding empty pieces. -/
def pySplitWS (s : Str) : List Str := splitWSGo [] s

/-- Worker for `pySplitLines`; `cur` is the current line, reversed. -/
def splitLinesGo (cur : Str) : Str → List Str
  | [] => [cur.reverse]
  | c :: rest =>
    if c = '\n' then cur.reverse :: splitLinesGo [] rest
    else splitLinesGo (c :: cur) rest

/-- Python `str.split('\n')`: split on newlines, keeping empty pieces. -/
def pySplitLines (s : Str) : List Str := splitLinesGo [] s

/-- Python `sep.join(parts)`. -/
def pyJoin (sep : Str) : List Str → Str
  | [] => []
  | [x] => x
  | x :: y :: rest => x ++ sep ++ pyJoin sep (y :: rest)

/-- Whether `pat` is a prefix of the second argument (Boolean). -/
def strStartsWith : Str → Str → Bool
  | [], _ => true
  | _ :: _, [] => false
  | p :: ps, c :: cs => p == c && strStartsWith ps cs

/-- Python `pat in s`: substring containment. -/
def strContains (pat : Str) : Str → Bool
  | [] => pat.isEmpty
  | c :: rest => strStartsWith pat (c :: rest) || strContains pat rest

/-- Decimal rendering of a natural number, as a `Str`. -/
def natToStr (n : Nat) : Str := (Nat.repr n).toList

/-! ### Solution parser (backend/generator.py)

`LLMGenerator.parse_solution_steps` splits an LLM-generated solution into
steps; `_extract_citations` pulls out `[doc:...]` citation tokens. -/

/-- A parsed solution step (the dictionaries built by
`parse_solution_steps`). -/
structure ParsedStep where
  step_num : Nat
  text : Str
  citations : List Str
  unsupported : Bool
deriving DecidableEq

/-- Scan to the first `']'`: returns the characters before it and the
remainder after it, or `none` if there is no `']'`. -/
def untilRBracket : Str → Option (Str × Str)
  | [] => none
  | c :: rest =>
    if c = ']' then some ([], rest)
    else
      match untilRBracket rest with
      | some (body, after) => some (c :: body, after)
      | none => none

/-- Fueled scanner for `re.findall(r'\[doc:[^\]]+\]', text)`: at each
position, if the literal `[doc:` starts here and a `']'` follows with at
least one non-`']'` character in between, emit the bracketed match and
resume after it; otherwise move one character forward.  The fuel is the
length of the scanned text, which always suffices. -/
def citationsGo : Nat → Str → List Str
  | 0, _ => []
  | _, [] => []
  | fuel + 1, c :: rest =>
    if strStartsWith "[doc:".toList (c :: rest) then
      match untilRBracket (rest.drop 4) with
      | some (body, after) =>
        if body.isEmpty then citationsGo fuel rest
        else ("[doc:".toList ++ body ++ [']']) :: citationsGo fuel after
      | none => citationsGo fuel rest
    else citationsGo fuel rest

/-- `LLMGenerator._extract_citations`: all matches of the literal bracket
pattern `[doc:...]` (no nested brackets, non-empty body). -/
def extract_citations (t : Str) : List Str := citationsGo t.length t

/-- Build the step dictionary flushed by `parse_solution_steps`: the text
is the newline-join of the buffered lines, citations are extracted from
that text, and `unsupported` is set iff the literal marker
`(UNSUPPORTED)` occurs in it. -/
def mkParsedStep (num : Nat) (buf : List Str) : ParsedStep :=
  let t := pyJoin "\n".toList buf
  { step_num := num, text := t, citations := extract_citations t,
    unsupported := strContains "(UNSUPPORTED)".toList t }

/-- The new-step test of `parse_solution_steps`:
`line[0].isdigit() and ('. ' in line or ') ' in line)` — the first
character is a digit and the line contains `". "` or `") "` anywhere. -/
def is_new_step_line (line : Str) : Bool :=
  (match line with
   | [] => false
   | c :: _ => c.isDigit) &&
  (strContains ". ".toList line || strContains ") ".toList line)

/-- Flush the buffered lines as a completed step if the buffer is
non-empty (appending at the end, like the Python list). -/
def flushStep (steps : List ParsedStep) (num : Nat) (buf : List Str) :
    List ParsedStep :=
  if buf.isEmpty then steps else steps ++ [mkParsedStep num buf]

/-- The line loop of `parse_solution_steps`: strip each line; a blank line
flushes the buffer; a new-step line flushes the buffer, increments the
step counter and starts a new buffer with the line; any other line is
appended to the buffer; a non-empty final buffer is flushed at the end. -/
def parseLinesGo (steps : List ParsedStep) (buf : List Str) (step_num : Nat) :
    List Str → List ParsedStep
  | [] => flushStep steps step_num buf
  | raw :: rest =>
    let line := pyStrip raw
    if line.isEmpty then
      parseLinesGo (flushStep steps step_num buf) [] step_num rest
    else if is_new_step_line line then
      parseLinesGo (flushStep steps step_num buf) [line] (step_num + 1) rest
    else
      parseLinesGo steps (buf ++ [line]) step_num rest

/-- `LLMGenerator.parse_solution_steps`. -/
def parse_solution_steps (solution_text : Str) : List ParsedStep :=
  parseLinesGo [] [] 0 (pySplitLines solution_text)

/-- The new-step marker exactly as claim C6 words it: a line that starts
with a digit followed by `". "` or `") "`.  Used only to compare the
claim's wording with the code's test. -/
def claim_step_marker (line : Str) : Bool :=
  match line with
  | c :: d :: e :: _ => c.isDigit && ((d = '.' || d = ')') && e = ' ')
  | _ => false

/-- Spec-side restatement of the amended claim C6: group the stripped
lines into steps (direct recursion over the lines, carrying the step
counter and the current group), starting a new group at a line passing
the code's new-step test, flushing at blank lines and at end of input. -/
def specGroupLines (num : Nat) (cur : List Str) : List Str → List (Nat × List Str)
  | [] => if cur.isEmpty then [] else [(num, cur)]
  | raw :: rest =>
    let line := pyStrip raw
    if line.isEmpty then
      if cur.isEmpty then specGroupLines num [] rest
      else (num, cur) :: specGroupLines num [] rest
    else if is_new_step_line line then
      if cur.isEmpty then specGroupLines (num + 1) [line] rest
      else (num, cur) :: specGroupLines (num + 1) [line] rest
    else specGroupLines num (cur ++ [line]) rest

/-- Spec-side parser of the amended claim C6: each group becomes one step
carrying its citations and unsupported flag. -/
def spec_parse_steps (t : Str) : List ParsedStep :=
  (specGroupLines 0 [] (pySplitLines t)).map fun g => mkParsedStep g.1 g.2

/-! ### Chunker (backend/ingest.py)

`DocumentIngestor._chunk_text` tokenizes the text with the canonical
tokenizer (tiktoken, an external capability) and slides a window of
`chunk_size` tokens, advancing by `chunk_size - chunk_overlap` each step,
while the window start is before the end of the token sequence.  The
token-level loop is modelled over an arbitrary token list. -/

/-- One window of the chunking loop: its ordinal and its token slice. -/
structure TokenChunk where
  chunk_index : Nat
  toks : List Nat
deriving DecidableEq

/-- The `while start < len(tokens)` loop of `_chunk_text`, with fuel.
Each iteration emits the window `tokens[start : start + chunk_size]` and
advances `start` by `chunk_size - chunk_overlap`.  When
`chunk_overlap < chunk_size` the advance is at least one token per
iteration, so fuel `tokens.length` always suffices (see `chunk_tokens`). -/
def chunkGo (chunk_size chunk_overlap : Nat) (tokens : List Nat) :
    Nat → Nat → Nat → List TokenChunk
  | 0, _, _ => []
  | fuel + 1, start, chunk_idx =>
    if start < tokens.length then
      { chunk_index := chunk_idx, toks := (tokens.drop start).take chunk_size } ::
        chunkGo chunk_size chunk_overlap tokens fuel
          (start + (chunk_size - chunk_overlap)) (chunk_idx + 1)
    else []

/-- The chunking loop of `_chunk_text` at token level, started at
`start = 0`, `chunk_idx = 0`. -/
def chunk_tokens (chunk_size chunk_overlap : Nat) (tokens : List Nat) :
    List TokenChunk :=
  chunkGo chunk_size chunk_overlap tokens tokens.length 0 0

/-- Reassembly of a chunk list with its declared overlaps: the first chunk
whole, every later chunk with its first `chunk_overlap` tokens removed. -/
def reassemble (chunk_overlap : Nat) : List TokenChunk → List Nat
  | [] => []
  | c :: rest => c.toks ++ (rest.map fun c2 => c2.toks.drop chunk_overlap).flatten

/-- The shared-boundary property claim C3 asserts of consecutive chunks:
the last `ov` tokens of `a` are exactly the first `ov` tokens of `b`, and
`b` really has `ov` tokens there. -/
def overlapsExactly (a b : TokenChunk) (ov : Nat) : Prop :=
  a.toks.drop (a.toks.length - ov) = b.toks.take ov ∧ ov ≤ b.toks.length

/-- A full document chunk as built by `_chunk_text`: identifier
`{filename}_p{page}_c{chunk_idx}`, the decoded window text stripped of
surrounding whitespace, the window's token count, and the provenance
metadata. -/
structure DocumentChunk where
  chunk_id : Str
  filename : Str
  page : Nat
  chunk_text : Str
  token_count : Nat
  chunk_index : Nat
  file_type : Str
  priority : Str
  trusted : Bool
deriving DecidableEq

/-- `DocumentIngestor._chunk_text`, parameterized by the tokenizer's
encode and decode (external capability). -/
def chunk_text_full (chunk_size chunk_overlap : Nat)
    (encode : Str → List Nat) (decode : List Nat → Str)
    (text filename : Str) (page : Nat) (file_type priority : Str)
    (trusted : Bool) : List DocumentChunk :=
  (chunk_tokens chunk_size chunk_overlap (encode text)).map fun c =>
    { chunk_id := filename ++ "_p".toList ++ natToStr page ++ "_c".toList ++
        natToStr c.chunk_index,
      filename := filename, page := page,
      chunk_text := pyStrip (decode c.toks), token_count := c.toks.length,
      chunk_index := c.chunk_index, file_type := file_type,
      priority := priority, trusted := trusted }

/-- `DocumentIngestor._ingest_text`: the whole file's text is chunked as
page 1 with file type `txt`, with no emptiness or whitespace guard. -/
def ingest_text (chunk_size chunk_overlap : Nat)
    (encode : Str → List Nat) (decode : List Nat → Str)
    (text filename priority : Str) (trusted : Bool) : List DocumentChunk :=
  chunk_text_full chunk_size chunk_overlap encode decode text filename 1
    "txt".toList priority trusted

/-- Modelled from the spec: the canonical tokenizer capability of §4.1
(the repository delegates to the external tiktoken library, whose encode
is lossless, so `decode (encode s) = s`; each character becomes one
token here). -/
def specEncode (s : Str) : List Nat := s.map Char.toNat

/-- Modelled from the spec: decoder of the canonical tokenizer capability,
inverse of `specEncode`. -/
def specDecode (l : List Nat) : Str := l.map Char.ofNat

/-- The `start` variable of the `_chunk_text` loop over the integers (a
Python int may go negative when `chunk_overlap > chunk_size`), with fuel:
`some starts` means the loop terminated within the fuel, returning the
window start positions; `none` means the fuel ran out with the loop still
running. -/
def chunkStartFuel (chunk_size chunk_overlap num_tokens : Int) :
    Int → Nat → Option (List Int)
  | _, 0 => none
  | start, fuel + 1 =>
    if start < num_tokens then
      match chunkStartFuel chunk_size chunk_overlap num_tokens
          (start + (chunk_size - chunk_overlap)) fuel with
      | some rest => some (start :: rest)
      | none => none
    else some []

/-! ### Retriever (backend/retrieve.py)

`DocumentRetriever.retrieve` queries the vector collection (external
capability, returning hits in ascending distance order) for
`top_k * 2` candidates when priority boosting is enabled, else `top_k`,
computes `similarity = 1 - distance`, optionally reranks by
`boosted_similarity = similarity * priority_weight * trust_weight`, and
truncates to `top_k`, reassigning ranks. -/

/-- The metadata fields of a stored chunk that retrieval reads
(`metadata.get(...)` on a Python dict: a missing key is `none`). -/
structure HitMeta where
  filename : Option Str := none
  page : Option Nat := none
  priority : Option Str := none
  trusted : Option Bool := none
deriving DecidableEq

/-- One hit returned by the vector collection query. -/
structure Hit where
  id : Str
  document : Str
  metadata : HitMeta
  distance : ℚ
deriving DecidableEq

/-- A retrieved chunk as assembled by `retrieve`: `boosted_similarity`
and `priority_boost` are present only after priority boosting. -/
structure RChunk where
  chunk_id : Str
  chunk_text : Str
  metadata : HitMeta
  distance : ℚ
  similarity : ℚ
  rank : Nat
  boosted_similarity : Option ℚ := none
  priority_boost : Option ℚ := none
deriving DecidableEq

/-- The result-processing loop of `retrieve`: each hit becomes a chunk
with `similarity = 1 - distance` and `rank` its position. -/
def processHits : List Hit → Nat → List RChunk
  | [], _ => []
  | h :: t, i =>
    { chunk_id := h.id, chunk_text := h.document, metadata := h.metadata,
      distance := h.distance, similarity := 1 - h.distance, rank := i } ::
      processHits t (i + 1)

/-- The priority weight table of `_apply_priority_boost`
(`priority_weights.get(priority, 1.0)`). -/
def priority_weight (p : Str) : ℚ :=
  if p = "rubric".toList then 13 / 10
  else if p = "slides".toList then 12 / 10
  else if p = "textbook".toList then 11 / 10
  else if p = "normal".toList then 1
  else 1

/-- The per-chunk body of `_apply_priority_boost`: the boost is the
priority weight (priority defaulting to `normal`), multiplied by `1.1`
when trusted (defaulting to trusted). -/
def boostChunk (c : RChunk) : RChunk :=
  let priority := c.metadata.priority.getD "normal".toList
  let trusted := c.metadata.trusted.getD true
  let boost := priority_weight priority * (if trusted then 11 / 10 else 1)
  { c with boosted_similarity := some (c.similarity * boost),
           priority_boost := some boost }

/-- Rank reassignment after sorting: rank `i` for the chunk at position
`i`. -/
def assignRanks : List RChunk → Nat → List RChunk
  | [], _ => []
  | c :: t, i => { c with rank := i } :: assignRanks t (i + 1)

/-- The sort key used by `_apply_priority_boost`
(`x['boosted_similarity']`). -/
def bsKey (c : RChunk) : ℚ := c.boosted_similarity.getD 0

/-- `DocumentRetriever._apply_priority_boost`: compute boosted scores,
sort descending by them (a stable sort, like Python's), reassign ranks. -/
def apply_priority_boost (chunks : List RChunk) : List RChunk :=
  let boosted := chunks.map boostChunk
  let sorted := boosted.mergeSort fun a b => decide (bsKey b ≤ bsKey a)
  assignRanks sorted 0

/-- `DocumentRetriever.retrieve`, parameterized by the full
ascending-distance candidate list `hits` the collection holds for the
query: `n_results = top_k * 2` when boosting else `top_k` is modelled as
taking that many best hits. -/
def retrieve (hits : List Hit) (top_k : Nat) (priority_boost : Bool) :
    List RChunk :=
  let fetched := hits.take (if priority_boost then top_k * 2 else top_k)
  let retrieved := processHits fetched 0
  let reranked :=
    if priority_boost && !retrieved.isEmpty then apply_priority_boost retrieved
    else retrieved
  reranked.take top_k

/-! ### Step validator (backend/validator.py) -/

/-- The number of shared distinct n-grams of
`StepValidator._compute_ngram_overlap`: lowercase, whitespace-split,
form the set of n-grams of each text, count the intersection. -/
def ngramList (toks : List Str) (n : Nat) : List Str :=
  (List.range (toks.length + 1 - n)).map fun i =>
    pyJoin [' '] ((toks.drop i).take n)

/-- `StepValidator._compute_ngram_overlap` (the `n = 3` default is
supplied at the call sites). -/
def compute_ngram_overlap (text1 text2 : Str) (n : Nat) : Nat :=
  let tokens1 := pySplitWS (pyLower text1)
  let tokens2 := pySplitWS (pyLower text2)
  let ngrams1 := (ngramList tokens1 n).dedup
  let ngrams2 := ngramList tokens2 n
  (ngrams1.filter fun g => decide (g ∈ ngrams2)).length

/-- Maximum of a similarity list (0 on the empty list, which the code
never reaches). -/
def listMax : List ℚ → ℚ
  | [] => 0
  | [x] => x
  | x :: y :: rest => max x (listMax (y :: rest))

/-- Index of the first maximum, the semantics of `np.argmax` (external
capability) used to pick the best-matching chunk. -/
def argmaxIdx : List ℚ → Nat
  | [] => 0
  | [_] => 0
  | x :: y :: rest =>
    if listMax (y :: rest) ≤ x then 0 else argmaxIdx (y :: rest) + 1

/-- The dictionary returned by `_check_textual_support` (the empty-chunk
branch omits `token_overlap` and `chunk_id`, hence the options). -/
structure TextualResult where
  supported : Bool
  similarity : ℚ
  token_overlap : Option Nat
  confidence : String
  chunk_id : Option Str
deriving DecidableEq

/-- `StepValidator._check_textual_support`, parameterized by the cosine
similarities `sims` of the step against each chunk (computed by the
external embedding model; `sims.length = chunk_texts.length`).  Picks the
best match by first-maximum, gates support on
`sim_threshold ≤ best ∧ min_ngram_overlap ≤ overlap`, and buckets
confidence by similarity alone. -/
def check_textual_support (sim_threshold : ℚ) (min_ngram_overlap : Nat)
    (step_text : Str) (chunk_texts : List Str)
    (chunk_meta_ids : List (Option Str)) (sims : List ℚ) : TextualResult :=
  if chunk_texts.isEmpty then
    { supported := false, similarity := 0, token_overlap := none,
      confidence := "LOW", chunk_id := none }
  else
    let best_idx := argmaxIdx sims
    let best_similarity := sims.getD best_idx 0
    let best_chunk := chunk_texts.getD best_idx []
    let overlap := compute_ngram_overlap step_text best_chunk 3
    let supported := decide (sim_threshold ≤ best_similarity) &&
      decide (min_ngram_overlap ≤ overlap)
    let confidence :=
      if (85 : ℚ) / 100 ≤ best_similarity then "HIGH"
      else if sim_threshold ≤ best_similarity then "MEDIUM"
      else "LOW"
    { supported := supported, similarity := best_similarity,
      token_overlap := some overlap, confidence := confidence,
      chunk_id :=
        if chunk_meta_ids.isEmpty then none
        else some ((chunk_meta_ids.getD best_idx none).getD "unknown".toList) }

/-- The dictionary returned by `_check_symbolic_support` (abstracted: the
sympy equivalence search is an external capability). -/
structure SymbolicResult where
  supported : Bool
  confidence : String
  chunk_id : Option Str := none
deriving DecidableEq

/-- The per-step verdict assembled by `_validate_step`. -/
structure StepCheck where
  supported : Bool
  support_type : String
  confidence : String
  best_similarity : ℚ
  best_chunk_id : Option Str
deriving DecidableEq

/-- `StepValidator._validate_step`, parameterized by the textual and
symbolic checks: textual support takes precedence, symbolic support is
the fallback (its dictionary has no `similarity`, so `0.0` is reported),
otherwise unsupported with the textual similarity. -/
def validate_step (textual : Str → TextualResult)
    (symbolic : Str → SymbolicResult) (step_text : Str) : StepCheck :=
  let text_support := textual step_text
  let symbolic_support := symbolic step_text
  if text_support.supported then
    { supported := true, support_type := "textual",
      confidence := text_support.confidence,
      best_similarity := text_support.similarity,
      best_chunk_id := text_support.chunk_id }
  else if symbolic_support.supported then
    { supported := true, support_type := "symbolic",
      confidence := symbolic_support.confidence,
      best_similarity := 0,
      best_chunk_id := symbolic_support.chunk_id }
  else
    { supported := false, support_type := "none", confidence := "LOW",
      best_similarity := text_support.similarity,
      best_chunk_id := text_support.chunk_id }

/-- A solution step as passed to `validate_solution` (the dictionaries
produced by the parser). -/
structure StepInput where
  step_num : Nat
  text : Str
  citations : List Str
  unsupported : Bool
deriving DecidableEq

/-- One entry of `step_validations`. -/
structure StepValidationRec where
  step_num : Nat
  step_text : Str
  supported : Bool
  support_type : String
  confidence : String
  best_match_similarity : ℚ
  best_match_chunk : Option Str
  citations_found : List Str
  unsupported_flag : Bool
deriving DecidableEq

/-- The record built for each non-empty step inside the
`validate_solution` loop. -/
def mkStepRecord (step : StepInput) (sv : StepCheck) : StepValidationRec :=
  { step_num := step.step_num, step_text := step.text,
    supported := sv.supported, support_type := sv.support_type,
    confidence := sv.confidence, best_match_similarity := sv.best_similarity,
    best_match_chunk := sv.best_chunk_id, citations_found := step.citations,
    unsupported_flag := step.unsupported }

/-- The dictionary returned by `validate_solution`. -/
structure ValidationResult where
  status : String
  message : String
  mode : String
  all_supported : Bool
  step_validations : List StepValidationRec
  total_steps : Nat
  supported_steps : Nat
deriving DecidableEq

/-- `StepValidator.validate_solution`, parameterized by the per-step
check (`_validate_step` applied to the retrieved chunks): skip steps
whose stripped text is empty, validate the rest, then aggregate — strict
mode fails outright unless every validated step is supported; any other
mode (prefer) grades partially by the supported/total ratio. -/
def validate_solution (validateStep : Str → StepCheck)
    (solution_steps : List StepInput) (mode : String) : ValidationResult :=
  let validation_results := solution_steps.filterMap fun step =>
    if pyStrip step.text = [] then none
    else some (mkStepRecord step (validateStep step.text))
  let all_supported := validation_results.all (·.supported)
  let supported_count := (validation_results.filter (·.supported)).length
  let total_count := validation_results.length
  let status :=
    if mode == "strict" && !all_supported then "FAILED"
    else if mode == "strict" then "PASSED"
    else if supported_count < total_count then "PARTIAL"
    else "PASSED"
  let message :=
    if mode == "strict" && !all_supported then
      "No supported solution found in resources."
    else if mode == "strict" then "All steps validated against resources."
    else
      toString supported_count ++ "/" ++ toString total_count ++
        " steps supported by resources."
  { status := status, message := message, mode := mode,
    all_supported := all_supported, step_validations := validation_results,
    total_steps := total_count, supported_steps := supported_count }

/-! ### Audit logging (backend/retrieve.py `_log_retrieval`,
backend/validator.py `_log_validation`)

Both log writers open the per-day log file and append a JSON line with no
exception handling; `retrieve` and `validate_solution` call them after
computing their result and before returning it, so a raised I/O error
propagates to the caller.  The write is modelled by its outcome. -/

/-- Sequencing of a computed result with the audit-log write, as both
`retrieve` and `validate_solution` do it: the result is returned only if
the log write did not raise; a raised error propagates. -/
def run_with_log {α : Type} (result : α) (logOutcome : Except String Unit) :
    Except String α :=
  match logOutcome with
  | Except.ok _ => Except.ok result
  | Except.error e => Except.error e

/-- `DocumentRetriever.retrieve` including its `_log_retrieval` call. -/
def retrieve_and_log (hits : List Hit) (top_k : Nat) (priority_boost : Bool)
    (logOutcome : Except String Unit) : Except String (List RChunk) :=
  run_with_log (retrieve hits top_k priority_boost) logOutcome

/-- `StepValidator.validate_solution` including its `_log_validation`
call. -/
def validate_solution_and_log (validateStep : Str → StepCheck)
    (solution_steps : List StepInput) (mode : String)
    (logOutcome : Except String Unit) : Except String ValidationResult :=
  run_with_log (validate_solution validateStep solution_steps mode) logOutcome

/-! ## Theorems -/

/-! ### C9: chunk_overlap ≥ chunk_size is never rejected — the loop spins -/

/-- C9: the claim says a configuration with `chunk_overlap >= chunk_size`
fails fast and chunking never proceeds under it.  The code has no such
check (`DocumentIngestor.__init__` just stores the fields), and the
`_chunk_text` loop then never terminates: whatever the fuel, the loop is
still running, because `start` never advances past the end.  This proves
the non-termination the spec warns about ("else the slide never
advances"), refuting fail-fast behaviour. -/
theorem overlap_ge_size_loop_diverges (chunk_size chunk_overlap num_tokens : Int)
    (hov : chunk_size ≤ chunk_overlap) :
    ∀ (fuel : Nat) (start : Int), start < num_tokens →
      chunkStartFuel chunk_size chunk_overlap num_tokens start fuel = none := by
  intro fuel
  induction fuel with
  | zero => intro start _; rfl
  | succ n ih =>
    intro start h
    have hrec := ih (start + (chunk_size - chunk_overlap)) (by omega)
    simp [chunkStartFuel, h, hrec]

/-- Witness for C9: with `chunk_size = chunk_overlap = 600` and a single
token, the loop is still running after any amount of fuel (here 7). -/
theorem overlap_ge_size_loop_diverges_witness :
    chunkStartFuel 600 600 1 0 7 = none :=
  overlap_ge_size_loop_diverges 600 600 1 (by decide) 7 0 (by decide)

/-! ### C8: a failing audit-log write fails the whole call -/

/-- C8: the claim says a failure while writing the audit log does not
cause `retrieve` or `validate_solution` to fail.  Neither
`_log_retrieval` nor `_log_validation` guards its file write, and both
are called before the result is returned, so a raised I/O error
propagates: when the log write errors the whole call errors, and only
when it succeeds is the result returned.  This refutes the claim. -/
theorem log_write_failure_fails_call (hits : List Hit) (top_k : Nat)
    (priority_boost : Bool) (validateStep : Str → StepCheck)
    (solution_steps : List StepInput) (mode : String) (e : String) :
    retrieve_and_log hits top_k priority_boost (Except.error e) =
      Except.error e ∧
    validate_solution_and_log validateStep solution_steps mode
      (Except.error e) = Except.error e ∧
    retrieve_and_log hits top_k priority_boost (Except.ok ()) =
      Except.ok (retrieve hits top_k priority_boost) ∧
    validate_solution_and_log validateStep solution_steps mode
      (Except.ok ()) =
      Except.ok (validate_solution validateStep solution_steps mode) :=
  ⟨rfl, rfl, rfl, rfl⟩

/-! ### C7: a whitespace-only text file yields one (empty) chunk -/

/-- C7: the claim says every file whose extracted text is empty or
whitespace-only yields zero chunks.  `_ingest_text` passes the raw file
text to `_chunk_text` with no guard (unlike the PDF/PPTX paths), and the
tokenizer encodes a whitespace-only text to a non-empty token list, so a
single-space text file yields exactly one chunk, whose stripped
`chunk_text` is empty.  Empty text does yield zero chunks. -/
theorem whitespace_txt_file_yields_a_chunk :
    pyStrip " ".toList = [] ∧
    ingest_text 600 100 specEncode specDecode [] "notes.txt".toList
      "normal".toList true = [] ∧
    (ingest_text 600 100 specEncode specDecode " ".toList "notes.txt".toList
      "normal".toList true).length = 1 ∧
    ((ingest_text 600 100 specEncode specDecode " ".toList "notes.txt".toList
      "normal".toList true).getD 0
        ⟨[], [], 0, [], 0, 0, [], [], true⟩).chunk_text = [] := by
  decide

/-! ### C6: the solution parser's new-step test -/

/-- The flushed-accumulator loop of `parse_solution_steps` equals the
direct recursive grouping of the amended claim. -/
theorem parseLinesGo_eq_specGroupLines (ls : List Str) :
    ∀ (steps : List ParsedStep) (buf : List Str) (num : Nat),
      parseLinesGo steps buf num ls =
        steps ++ (specGroupLines num buf ls).map fun g =>
          mkParsedStep g.1 g.2 := by
  induction ls with
  | nil =>
    intro steps buf num
    by_cases h : buf.isEmpty <;>
      simp [parseLinesGo, specGroupLines, flushStep, h]
  | cons raw rest ih =>
    intro steps buf num
    by_cases h1 : (pyStrip raw).isEmpty
    · by_cases h2 : buf.isEmpty <;>
        simp [parseLinesGo, specGroupLines, flushStep, h1, h2, ih]
    · by_cases h3 : is_new_step_line (pyStrip raw)
      · by_cases h2 : buf.isEmpty <;>
          simp [parseLinesGo, specGroupLines, flushStep, h1, h2, h3, ih]
      · simp [parseLinesGo, specGroupLines, flushStep, h1, h3, ih]

/-- Counterexample for C6: the claim says a new step starts exactly at a
line that starts with a digit followed by `". "` or `") "`.  The line
`"1 x. y"` does not match that description (the digit is followed by a
space), yet the code starts a new step there, because its test only
requires the separator to occur somewhere in the line: parsing
`"intro\n1 x. y"` (no blank lines, no claim-marker lines) yields two
steps where the claim predicts one. -/
theorem parse_new_step_marker_cex :
    claim_step_marker (pyStrip "1 x. y".toList) = false ∧
    claim_step_marker (pyStrip "intro".toList) = false ∧
    is_new_step_line (pyStrip "1 x. y".toList) = true ∧
    (parse_solution_steps "intro\n1 x. y".toList).map (fun s => s.text) =
      ["intro".toList, "1 x. y".toList] := by
  decide

/-- C6 (amended): a new step starts exactly at a line whose first
character is a digit and which contains `". "` or `") "` anywhere in it;
other non-blank lines append to the current step's buffer; a blank line
flushes the buffer, and a non-empty final buffer is flushed at
end-of-input; each flushed step carries the `[doc:...]` citations found
in its text, and `unsupported` is true iff `(UNSUPPORTED)` occurs in the
step text. -/
theorem parse_solution_steps_amended (t : Str) :
    parse_solution_steps t = spec_parse_steps t ∧
    ∀ s ∈ parse_solution_steps t,
      s.citations = extract_citations s.text ∧
      s.unsupported = strContains "(UNSUPPORTED)".toList s.text := by
  have hmain : parse_solution_steps t = spec_parse_steps t := by
    simpa [parse_solution_steps, spec_parse_steps] using
      parseLinesGo_eq_specGroupLines (pySplitLines t) [] [] 0
  refine ⟨hmain, ?_⟩
  intro s hs
  rw [hmain] at hs
  obtain ⟨g, _, hg⟩ := List.mem_map.mp hs
  subst hg
  exact ⟨rfl, rfl⟩

/-- Witness for C6 (amended), at a concrete solution text. -/
theorem parse_solution_steps_amended_witness :
    parse_solution_steps "1. a\n\n2) b (UNSUPPORTED)".toList =
      spec_parse_steps "1. a\n\n2) b (UNSUPPORTED)".toList ∧
    ∀ s ∈ parse_solution_steps "1. a\n\n2) b (UNSUPPORTED)".toList,
      s.citations = extract_citations s.text ∧
      s.unsupported = strContains "(UNSUPPORTED)".toList s.text :=
  parse_solution_steps_amended ("1. a\n\n2) b (UNSUPPORTED)".toList)

/-! ### C1, C2: strict and prefer mode aggregation -/

/-- A step is supported by `_validate_step` iff the textual or the
symbolic check supports it. -/
theorem validate_step_supported (textual : Str → TextualResult)
    (symbolic : Str → SymbolicResult) (t : Str) :
    (validate_step textual symbolic t).supported =
      ((textual t).supported || (symbolic t).supported) := by
  unfold validate_step
  by_cases h1 : (textual t).supported <;>
    by_cases h2 : (symbolic t).supported <;> simp [h1, h2]

/-- The `all_supported` flag of `validate_solution` holds iff every step
with non-empty stripped text is supported by the per-step check. -/
theorem validate_results_all_iff (vs : Str → StepCheck)
    (steps : List StepInput) :
    ((steps.filterMap fun step =>
        if pyStrip step.text = [] then none
        else some (mkStepRecord step (vs step.text))).all (·.supported))
      = true ↔
      ∀ s ∈ steps, pyStrip s.text ≠ [] → (vs s.text).supported = true := by
  rw [List.all_eq_true]
  constructor
  · intro h s hs hne
    have hmem : mkStepRecord s (vs s.text) ∈ steps.filterMap fun step =>
        if pyStrip step.text = [] then none
        else some (mkStepRecord step (vs step.text)) :=
      List.mem_filterMap.mpr ⟨s, hs, by simp [hne]⟩
    simpa [mkStepRecord] using h _ hmem
  · intro h r hr
    obtain ⟨s, hs, hf⟩ := List.mem_filterMap.mp hr
    by_cases hne : pyStrip s.text = []
    · simp [hne] at hf
    · rw [if_neg hne] at hf
      cases hf
      simpa [mkStepRecord] using h s hs hne

/-- The number of validated records equals the number of steps whose
stripped text is non-empty (`validate_solution` skips the rest). -/
theorem validate_results_length (vs : Str → StepCheck)
    (steps : List StepInput) :
    (steps.filterMap fun step =>
        if pyStrip step.text = [] then none
        else some (mkStepRecord step (vs step.text))).length =
      (steps.filter fun s => !(pyStrip s.text).isEmpty).length := by
  induction steps with
  | nil => rfl
  | cons a t ih =>
    by_cases h : pyStrip a.text = [] <;>
      simp [List.filterMap_cons, List.filter_cons, h, ih, List.isEmpty_iff]

/-- C1: under `mode="strict"`, validation returns status `FAILED` with
message exactly `"No supported solution found in resources."` iff some
step with non-empty stripped text is supported by neither the textual
nor the symbolic check, and `PASSED` (with the generic success message)
iff every such step is supported by at least one of them; strict mode
never returns `PARTIAL`. -/
theorem strict_mode_binary_verdict (textual : Str → TextualResult)
    (symbolic : Str → SymbolicResult) (steps : List StepInput)
    (r : ValidationResult)
    (hr : r = validate_solution (validate_step textual symbolic) steps
      "strict") :
    (r.status = "FAILED" ∨ r.status = "PASSED") ∧
    (r.status = "FAILED" ↔ ∃ s ∈ steps, pyStrip s.text ≠ [] ∧
      (textual s.text).supported = false ∧
      (symbolic s.text).supported = false) ∧
    (r.status = "FAILED" →
      r.message = "No supported solution found in resources.") ∧
    (r.status = "PASSED" ↔ ∀ s ∈ steps, pyStrip s.text ≠ [] →
      ((textual s.text).supported = true ∨
        (symbolic s.text).supported = true)) ∧
    r.status ≠ "PARTIAL" ∧
    (r.status = "PASSED" →
      r.message = "All steps validated against resources.") := by
  subst hr
  have hall := validate_results_all_iff (validate_step textual symbolic) steps
  have hVS : (∀ s ∈ steps, pyStrip s.text ≠ [] →
      (validate_step textual symbolic s.text).supported = true) ↔
      ∀ s ∈ steps, pyStrip s.text ≠ [] →
        ((textual s.text).supported = true ∨
          (symbolic s.text).supported = true) := by
    constructor <;> intro h s hs hne <;> have hx := h s hs hne
    · rw [validate_step_supported] at hx
      simpa using hx
    · rw [validate_step_supported]
      simpa using hx
  have hbad : (¬ ∀ s ∈ steps, pyStrip s.text ≠ [] →
      (validate_step textual symbolic s.text).supported = true) ↔
      ∃ s ∈ steps, pyStrip s.text ≠ [] ∧
        (textual s.text).supported = false ∧
        (symbolic s.text).supported = false := by
    rw [hVS]
    push_neg
    constructor <;>
      · rintro ⟨s, hs, hne, hsup⟩
        refine ⟨s, hs, hne, ?_⟩
        revert hsup
        cases (textual s.text).supported <;>
          cases (symbolic s.text).supported <;> simp
  by_cases hA : ((steps.filterMap fun step =>
      if pyStrip step.text = [] then none
      else some (mkStepRecord step
        ((validate_step textual symbolic) step.text))).all (·.supported))
      = true
  · have hforall := hall.mp hA
    have hsupp := hVS.mp hforall
    have hstat : (validate_solution (validate_step textual symbolic) steps
        "strict").status = "PASSED" := by
      simp [validate_solution, hA]
    have hmsg : (validate_solution (validate_step textual symbolic) steps
        "strict").message = "All steps validated against resources." := by
      simp [validate_solution, hA]
    refine ⟨Or.inr hstat, ?_, ?_, ?_, ?_, fun _ => hmsg⟩
    · rw [hstat]
      constructor
      · intro h
        exact absurd h (by decide)
      · intro hex
        exact absurd hforall (hbad.mpr hex)
    · rw [hstat]
      intro h
      exact absurd h (by decide)
    · rw [hstat]
      simpa using hsupp
    · rw [hstat]
      decide
  · have hfail := hbad.mp fun hforall => hA (hall.mpr hforall)
    have hAB : ((steps.filterMap fun step =>
        if pyStrip step.text = [] then none
        else some (mkStepRecord step
          ((validate_step textual symbolic) step.text))).all (·.supported))
        = false := by
      revert hA
      cases ((steps.filterMap fun step =>
          if pyStrip step.text = [] then none
          else some (mkStepRecord step
            ((validate_step textual symbolic) step.text))).all (·.supported))
        <;> simp
    have hstat : (validate_solution (validate_step textual symbolic) steps
        "strict").status = "FAILED" := by
      simp [validate_solution, hAB]
    have hmsg : (validate_solution (validate_step textual symbolic) steps
        "strict").message = "No supported solution found in resources." := by
      simp [validate_solution, hAB]
    refine ⟨Or.inl hstat, ?_, fun _ => hmsg, ?_, ?_, ?_⟩
    · rw [hstat]
      simpa using hfail
    · rw [hstat]
      constructor
      · intro h
        exact absurd h (by decide)
      · intro hsupp
        exact absurd (hall.mpr (hVS.mpr hsupp)) (by simp [hAB])
    · rw [hstat]
      decide
    · rw [hstat]
      intro h
      exact absurd h (by decide)

/-- Witness for C1: a single unsupported step makes strict mode fail. -/
theorem strict_mode_binary_verdict_witness :
    (validate_solution
      (validate_step (fun _ => ⟨false, 0, none, "LOW", none⟩)
        (fun _ => ⟨false, "LOW", none⟩))
      [⟨1, "a".toList, [], false⟩] "strict").status = "FAILED" := by
  have h := strict_mode_binary_verdict
    (fun _ => ⟨false, 0, none, "LOW", none⟩) (fun _ => ⟨false, "LOW", none⟩)
    [⟨1, "a".toList, [], false⟩] _ rfl
  exact h.2.1.mpr ⟨⟨1, "a".toList, [], false⟩, by decide, by decide, rfl, rfl⟩

/-- C2: under `mode="prefer"`, validation returns `PASSED` iff
`supported_steps = total_steps` and `PARTIAL` (with the supported/total
ratio message) otherwise; prefer mode never returns `FAILED`, and steps
with whitespace-only text are skipped and not counted in
`total_steps`. -/
theorem prefer_mode_partial_credit (textual : Str → TextualResult)
    (symbolic : Str → SymbolicResult) (steps : List StepInput)
    (r : ValidationResult)
    (hr : r = validate_solution (validate_step textual symbolic) steps
      "prefer") :
    (r.status = "PASSED" ∨ r.status = "PARTIAL") ∧
    (r.status = "PASSED" ↔ r.supported_steps = r.total_steps) ∧
    (r.status = "PARTIAL" ↔ r.supported_steps < r.total_steps) ∧
    r.status ≠ "FAILED" ∧
    r.message = toString r.supported_steps ++ "/" ++ toString r.total_steps
      ++ " steps supported by resources." ∧
    r.total_steps = (steps.filter fun s => !(pyStrip s.text).isEmpty).length
    := by
  subst hr
  have hle : ((steps.filterMap fun step =>
      if pyStrip step.text = [] then none
      else some (mkStepRecord step
        ((validate_step textual symbolic) step.text))).filter
          (·.supported)).length ≤
      (steps.filterMap fun step =>
        if pyStrip step.text = [] then none
        else some (mkStepRecord step
          ((validate_step textual symbolic) step.text))).length :=
    List.length_filter_le _ _
  have hlen := validate_results_length (validate_step textual symbolic) steps
  have hsup : (validate_solution (validate_step textual symbolic) steps
      "prefer").supported_steps = ((steps.filterMap fun step =>
      if pyStrip step.text = [] then none
      else some (mkStepRecord step
        ((validate_step textual symbolic) step.text))).filter
          (·.supported)).length := by
    simp [validate_solution]
  have htot : (validate_solution (validate_step textual symbolic) steps
      "prefer").total_steps = (steps.filterMap fun step =>
        if pyStrip step.text = [] then none
        else some (mkStepRecord step
          ((validate_step textual symbolic) step.text))).length := by
    simp [validate_solution]
  have hmsg : (validate_solution (validate_step textual symbolic) steps
      "prefer").message =
      toString (validate_solution (validate_step textual symbolic) steps
        "prefer").supported_steps ++ "/" ++
      toString (validate_solution (validate_step textual symbolic) steps
        "prefer").total_steps ++ " steps supported by resources." := by
    simp [validate_solution]
  by_cases hlt : ((steps.filterMap fun step =>
      if pyStrip step.text = [] then none
      else some (mkStepRecord step
        ((validate_step textual symbolic) step.text))).filter
          (·.supported)).length <
      (steps.filterMap fun step =>
        if pyStrip step.text = [] then none
        else some (mkStepRecord step
          ((validate_step textual symbolic) step.text))).length
  · have hstat : (validate_solution (validate_step textual symbolic) steps
        "prefer").status = "PARTIAL" := by
      simp [validate_solution, hlt]
    refine ⟨Or.inr hstat, ?_, ?_, ?_, hmsg, ?_⟩
    · rw [hstat, hsup, htot]
      constructor
      · intro h
        exact absurd h (by decide)
      · intro h
        omega
    · rw [hstat, hsup, htot]
      simpa using hlt
    · rw [hstat]
      decide
    · rw [htot, hlen]
  · have hstat : (validate_solution (validate_step textual symbolic) steps
        "prefer").status = "PASSED" := by
      simp [validate_solution, hlt]
    refine ⟨Or.inl hstat, ?_, ?_, ?_, hmsg, ?_⟩
    · rw [hstat, hsup, htot]
      constructor
      · intro _
        omega
      · intro _
        rfl
    · rw [hstat, hsup, htot]
      constructor
      · intro h
        exact absurd h (by decide)
      · intro h
        omega
    · rw [hstat]
      decide
    · rw [htot, hlen]

/-- Witness for C2: one supported and one unsupported step give a
partial verdict. -/
theorem prefer_mode_partial_credit_witness :
    (validate_solution
      (validate_step
        (fun t => ⟨t = "good".toList, 0, none, "LOW", none⟩)
        (fun _ => ⟨false, "LOW", none⟩))
      [⟨1, "good".toList, [], false⟩, ⟨2, "bad".toList, [], false⟩]
      "prefer").status = "PARTIAL" := by
  have h := prefer_mode_partial_credit
    (fun t => ⟨t = "good".toList, 0, none, "LOW", none⟩)
    (fun _ => ⟨false, "LOW", none⟩)
    [⟨1, "good".toList, [], false⟩, ⟨2, "bad".toList, [], false⟩] _ rfl
  exact h.2.2.1.mpr (by decide)

/-! ### C10, C5: the textual support check -/

/-- The n-gram overlap of two texts is at most the number of n-grams of
the first (the intersection cannot exceed either set). -/
theorem compute_ngram_overlap_le (t1 t2 : Str) (n : Nat) :
    compute_ngram_overlap t1 t2 n ≤ (pySplitWS (pyLower t1)).length + 1 - n := by
  have h1 : compute_ngram_overlap t1 t2 n =
      ((ngramList (pySplitWS (pyLower t1)) n).dedup.filter fun g =>
        decide (g ∈ ngramList (pySplitWS (pyLower t2)) n)).length := rfl
  rw [h1]
  calc ((ngramList (pySplitWS (pyLower t1)) n).dedup.filter fun g =>
        decide (g ∈ ngramList (pySplitWS (pyLower t2)) n)).length
      ≤ (ngramList (pySplitWS (pyLower t1)) n).dedup.length :=
        List.length_filter_le _ _
    _ ≤ (ngramList (pySplitWS (pyLower t1)) n).length :=
        (List.dedup_sublist _).length_le
    _ = (pySplitWS (pyLower t1)).length + 1 - n := by simp [ngramList]

/-- C10: with the defaults (3-grams, `min_ngram_overlap = 6`), a step
whose text splits into fewer than 8 whitespace-separated tokens has at
most 5 distinct 3-grams, so its overlap with any chunk stays below the
gate and the textual check can never mark it supported, whatever the
similarities. -/
theorem short_step_never_textually_supported (step_text : Str)
    (h : (pySplitWS (pyLower step_text)).length < 8)
    (sim_threshold : ℚ) (chunk_texts : List Str)
    (chunk_meta_ids : List (Option Str)) (sims : List ℚ) :
    (ngramList (pySplitWS (pyLower step_text)) 3).dedup.length ≤ 5 ∧
    (∀ chunk : Str, compute_ngram_overlap step_text chunk 3 < 6) ∧
    (check_textual_support sim_threshold 6 step_text chunk_texts
      chunk_meta_ids sims).supported = false := by
  have hng : (ngramList (pySplitWS (pyLower step_text)) 3).dedup.length ≤ 5 := by
    have h1 :=
      (List.dedup_sublist (ngramList (pySplitWS (pyLower step_text)) 3)).length_le
    have h2 : (ngramList (pySplitWS (pyLower step_text)) 3).length =
        (pySplitWS (pyLower step_text)).length + 1 - 3 := by simp [ngramList]
    omega
  have hov : ∀ chunk : Str, compute_ngram_overlap step_text chunk 3 < 6 := by
    intro chunk
    have h1 := compute_ngram_overlap_le step_text chunk 3
    omega
  refine ⟨hng, hov, ?_⟩
  by_cases hemp : chunk_texts.isEmpty
  · simp [check_textual_support, hemp]
  · simp [check_textual_support, hemp]
    intro _
    exact hov _

/-- Witness for C10: a five-token step is never textually supported even
with perfect similarity. -/
theorem short_step_never_textually_supported_witness :
    (check_textual_support (78 / 100) 6 "so x = 4 holds".toList
      ["the solution is x = 4 because subtracting five gives it".toList]
      [some "c0".toList] [1]).supported = false := by
  have h := short_step_never_textually_supported "so x = 4 holds".toList
    (by decide) (78 / 100)
    ["the solution is x = 4 because subtracting five gives it".toList]
    [some "c0".toList] [1]
  exact h.2.2

/-- Every element of a similarity list is at most its maximum. -/
theorem le_listMax (l : List ℚ) : ∀ x ∈ l, x ≤ listMax l := by
  induction l with
  | nil => simp
  | cons a t ih =>
    cases t with
    | nil => simp [listMax]
    | cons b r =>
      intro x hx
      rcases List.mem_cons.mp hx with h | h
      · subst h
        simp only [listMax]
        exact le_max_left _ _
      · calc x ≤ listMax (b :: r) := ih x h
          _ ≤ listMax (a :: b :: r) := by
            simp only [listMax]
            exact le_max_right _ _

/-- The element at the first-maximum index is the maximum. -/
theorem getD_argmaxIdx (l : List ℚ) (hl : l ≠ []) :
    l.getD (argmaxIdx l) 0 = listMax l := by
  induction l with
  | nil => exact absurd rfl hl
  | cons a t ih =>
    cases t with
    | nil => simp [argmaxIdx, listMax]
    | cons b r =>
      by_cases h : listMax (b :: r) ≤ a
      · simp only [argmaxIdx, listMax, if_pos h, List.getD_cons_zero]
        exact (max_eq_left h).symm
      · have hx : a ≤ listMax (b :: r) := le_of_not_le h
        simp only [argmaxIdx, listMax, if_neg h, List.getD_cons_succ]
        rw [ih (by simp)]
        exact (max_eq_right hx).symm

/-- C5: with a non-empty chunk list, the textual check supports a step
iff both the best similarity clears `sim_threshold` and the 3-gram
overlap with the best-matching chunk clears `min_ngram_overlap`; the
reported similarity is the list maximum (attained at the first-maximum
index); confidence buckets depend on similarity alone (`HIGH` iff
`≥ 0.85`, `MEDIUM` iff `threshold ≤ s < 0.85`, `LOW` otherwise); and at
the defaults there is an input reported `MEDIUM` yet unsupported because
the overlap gate failed. -/
theorem textual_support_gate_and_confidence (sim_threshold : ℚ)
    (min_ngram_overlap : Nat) (step_text : Str) (chunk_texts : List Str)
    (chunk_meta_ids : List (Option Str)) (sims : List ℚ)
    (hne : chunk_texts ≠ []) (r : TextualResult)
    (hr : r = check_textual_support sim_threshold min_ngram_overlap step_text
      chunk_texts chunk_meta_ids sims) :
    (r.supported = true ↔ sim_threshold ≤ sims.getD (argmaxIdx sims) 0 ∧
      min_ngram_overlap ≤ compute_ngram_overlap step_text
        (chunk_texts.getD (argmaxIdx sims) []) 3) ∧
    r.similarity = sims.getD (argmaxIdx sims) 0 ∧
    (∀ x ∈ sims, x ≤ sims.getD (argmaxIdx sims) 0) ∧
    (r.confidence = "HIGH" ↔ (85 : ℚ) / 100 ≤ r.similarity) ∧
    (r.confidence = "MEDIUM" ↔ sim_threshold ≤ r.similarity ∧
      r.similarity < 85 / 100) ∧
    (r.confidence = "LOW" ↔ r.similarity < sim_threshold ∧
      r.similarity < 85 / 100) ∧
    (check_textual_support (78 / 100) 6 "alpha beta".toList
      ["unrelated chunk text with plenty of distinct words in it".toList]
      [some "c0".toList] [4 / 5]).confidence = "MEDIUM" ∧
    (check_textual_support (78 / 100) 6 "alpha beta".toList
      ["unrelated chunk text with plenty of distinct words in it".toList]
      [some "c0".toList] [4 / 5]).supported = false := by
  have hemp : chunk_texts.isEmpty = false := List.isEmpty_eq_false.mpr hne
  have hbest : ∀ x ∈ sims, x ≤ sims.getD (argmaxIdx sims) 0 := by
    cases hs : sims with
    | nil => simp
    | cons a t =>
      rw [← hs, getD_argmaxIdx sims (by simp [hs])]
      exact le_listMax sims
  have hsplit : r.supported = (decide (sim_threshold ≤
      sims.getD (argmaxIdx sims) 0) && decide (min_ngram_overlap ≤
        compute_ngram_overlap step_text
          (chunk_texts.getD (argmaxIdx sims) []) 3)) ∧
      r.similarity = sims.getD (argmaxIdx sims) 0 ∧
      r.confidence = (if (85 : ℚ) / 100 ≤ sims.getD (argmaxIdx sims) 0
        then "HIGH"
        else if sim_threshold ≤ sims.getD (argmaxIdx sims) 0 then "MEDIUM"
        else "LOW") := by
    subst hr
    simp [check_textual_support, hemp]
  obtain ⟨hsupp, hsim, hconf⟩ := hsplit
  have hc78 : ((78 : ℚ) / 100 ≤ 4 / 5) := by norm_num
  have hc85 : ¬ ((85 : ℚ) / 100 ≤ 4 / 5) := by norm_num
  have hcex : (check_textual_support (78 / 100) 6 "alpha beta".toList
      ["unrelated chunk text with plenty of distinct words in it".toList]
      [some "c0".toList] [4 / 5]).confidence = "MEDIUM" ∧
      (check_textual_support (78 / 100) 6 "alpha beta".toList
      ["unrelated chunk text with plenty of distinct words in it".toList]
      [some "c0".toList] [4 / 5]).supported = false := by
    constructor
    · simp only [check_textual_support, argmaxIdx, List.getD_cons_zero,
        List.isEmpty_cons, if_neg hc85, if_pos hc78, Bool.and_eq_false_imp,
        decide_eq_true_eq, decide_eq_false_iff_not, if_false,
        Bool.false_eq_true, reduceIte]
    · simp only [check_textual_support, argmaxIdx, List.getD_cons_zero,
        List.isEmpty_cons, if_neg hc85, if_pos hc78, Bool.and_eq_false_imp,
        decide_eq_true_eq, decide_eq_false_iff_not, if_false,
        Bool.false_eq_true, reduceIte]
      intro _
      decide
  refine ⟨?_, hsim, hbest, ?_, ?_, ?_, hcex.1, hcex.2⟩
  · rw [hsupp]
    simp
  · rw [hconf, hsim]
    by_cases h85 : (85 : ℚ) / 100 ≤ sims.getD (argmaxIdx sims) 0
    · rw [if_pos h85]
      exact ⟨fun _ => h85, fun _ => rfl⟩
    · rw [if_neg h85]
      by_cases hth : sim_threshold ≤ sims.getD (argmaxIdx sims) 0
      · rw [if_pos hth]
        exact ⟨fun hc => absurd hc (by decide), fun hh => absurd hh h85⟩
      · rw [if_neg hth]
        exact ⟨fun hc => absurd hc (by decide), fun hh => absurd hh h85⟩
  · rw [hconf, hsim]
    by_cases h85 : (85 : ℚ) / 100 ≤ sims.getD (argmaxIdx sims) 0
    · rw [if_pos h85]
      exact ⟨fun hc => absurd hc (by decide),
        fun hx => absurd h85 (not_le.mpr hx.2)⟩
    · rw [if_neg h85]
      by_cases hth : sim_threshold ≤ sims.getD (argmaxIdx sims) 0
      · rw [if_pos hth]
        exact ⟨fun _ => ⟨hth, lt_of_not_le h85⟩, fun _ => rfl⟩
      · rw [if_neg hth]
        exact ⟨fun hc => absurd hc (by decide), fun hx => absurd hx.1 hth⟩
  · rw [hconf, hsim]
    by_cases h85 : (85 : ℚ) / 100 ≤ sims.getD (argmaxIdx sims) 0
    · rw [if_pos h85]
      exact ⟨fun hc => absurd hc (by decide),
        fun hx => absurd h85 (not_le.mpr hx.2)⟩
    · rw [if_neg h85]
      by_cases hth : sim_threshold ≤ sims.getD (argmaxIdx sims) 0
      · rw [if_pos hth]
        exact ⟨fun hc => absurd hc (by decide),
          fun hx => absurd hth (not_le.mpr hx.1)⟩
      · rw [if_neg hth]
        exact ⟨fun _ => ⟨lt_of_not_le hth, lt_of_not_le h85⟩, fun _ => rfl⟩

/-- Witness for C5 at concrete inputs: with one chunk of similarity 0.9
and heavy token overlap, the step is supported. -/
theorem textual_support_gate_and_confidence_witness :
    (check_textual_support (78 / 100) 2
      "subtract five from both sides to get the answer".toList
      ["subtract five from both sides to get the answer here".toList]
      [some "c0".toList] [9 / 10]).supported = true := by
  have h := textual_support_gate_and_confidence (78 / 100) 2
    "subtract five from both sides to get the answer".toList
    ["subtract five from both sides to get the answer here".toList]
    [some "c0".toList] [9 / 10] (by decide) _ rfl
  refine h.1.mpr ⟨by norm_num [argmaxIdx], ?_⟩
  norm_num [argmaxIdx]
  decide

/-! ### C3: the chunking loop -/

/-- Position `k` exists in the chunk list iff the window start
`start + k * step` is before the end of the token sequence. -/
theorem chunkGo_length_iff (chunk_size chunk_overlap : Nat)
    (tokens : List Nat) (hov : chunk_overlap < chunk_size) :
    ∀ (fuel start idx k : Nat), tokens.length ≤ start + fuel →
      (k < (chunkGo chunk_size chunk_overlap tokens fuel start idx).length ↔
        start + k * (chunk_size - chunk_overlap) < tokens.length) := by
  intro fuel
  induction fuel with
  | zero =>
    intro start idx k hf
    generalize k * (chunk_size - chunk_overlap) = p
    simp only [chunkGo, List.length_nil]
    omega
  | succ n ih =>
    intro start idx k hf
    by_cases hs : start < tokens.length
    · simp only [chunkGo, if_pos hs, List.length_cons]
      cases k with
      | zero => simp [hs]
      | succ m =>
        rw [Nat.succ_lt_succ_iff,
          ih (start + (chunk_size - chunk_overlap)) (idx + 1) m (by omega),
          Nat.succ_mul]
        generalize m * (chunk_size - chunk_overlap) = p
        omega
    · simp only [chunkGo, if_neg hs, List.length_nil]
      generalize k * (chunk_size - chunk_overlap) = p
      omega

/-- The chunk at position `k` is the window of `chunk_size` tokens
starting at `start + k * step`, with ordinal `idx + k`. -/
theorem chunkGo_getD (chunk_size chunk_overlap : Nat) (tokens : List Nat)
    (hov : chunk_overlap < chunk_size) :
    ∀ (fuel start idx k : Nat), tokens.length ≤ start + fuel →
      start + k * (chunk_size - chunk_overlap) < tokens.length →
      (chunkGo chunk_size chunk_overlap tokens fuel start idx).getD k ⟨0, []⟩ =
        ⟨idx + k, (tokens.drop
          (start + k * (chunk_size - chunk_overlap))).take chunk_size⟩ := by
  intro fuel
  induction fuel with
  | zero =>
    intro start idx k hf hk
    exfalso
    generalize k * (chunk_size - chunk_overlap) = p at hk
    omega
  | succ n ih =>
    intro start idx k hf hk
    have hs : start < tokens.length := by
      generalize k * (chunk_size - chunk_overlap) = p at hk
      omega
    simp only [chunkGo, if_pos hs]
    cases k with
    | zero => simp
    | succ m =>
      have he : start + (chunk_size - chunk_overlap) +
          m * (chunk_size - chunk_overlap) =
          start + (m + 1) * (chunk_size - chunk_overlap) := by
        rw [Nat.succ_mul]
        generalize m * (chunk_size - chunk_overlap) = p
        omega
      rw [List.getD_cons_succ,
        ih (start + (chunk_size - chunk_overlap)) (idx + 1) m (by omega)
          (by rw [he]; exact hk), he]
      simp only [TokenChunk.mk.injEq]
      exact ⟨by omega, trivial⟩

/-- The chunk ordinals are consecutive starting at `idx`. -/
theorem chunkGo_map_index (chunk_size chunk_overlap : Nat)
    (tokens : List Nat) :
    ∀ (fuel start idx : Nat),
      (chunkGo chunk_size chunk_overlap tokens fuel start idx).map
        (·.chunk_index) =
      List.range' idx
        (chunkGo chunk_size chunk_overlap tokens fuel start idx).length := by
  intro fuel
  induction fuel with
  | zero => intro start idx; rfl
  | succ n ih =>
    intro start idx
    by_cases hs : start < tokens.length
    · simp only [chunkGo, if_pos hs, List.map_cons, List.length_cons,
        List.range'_succ]
      rw [ih]
    · simp [chunkGo, hs]

/-- Every emitted chunk holds at most `chunk_size` tokens. -/
theorem chunkGo_toks_le (chunk_size chunk_overlap : Nat)
    (tokens : List Nat) :
    ∀ (fuel start idx : Nat),
      ∀ c ∈ chunkGo chunk_size chunk_overlap tokens fuel start idx,
        c.toks.length ≤ chunk_size := by
  intro fuel
  induction fuel with
  | zero =>
    intro start idx c hc
    simp [chunkGo] at hc
  | succ n ih =>
    intro start idx c hc
    by_cases hs : start < tokens.length
    · simp only [chunkGo, if_pos hs, List.mem_cons] at hc
      rcases hc with h | h
      · subst h
        exact List.length_take_le _ _
      · exact ih _ _ c h
    · simp [chunkGo, hs] at hc

/-- Dropping the declared overlap from every chunk and concatenating
recovers the token suffix from `start + chunk_overlap` on. -/
theorem chunkGo_flatten_drop (chunk_size chunk_overlap : Nat)
    (tokens : List Nat) (hov : chunk_overlap < chunk_size) :
    ∀ (fuel start idx : Nat), tokens.length ≤ start + fuel →
      ((chunkGo chunk_size chunk_overlap tokens fuel start idx).map
        fun c => c.toks.drop chunk_overlap).flatten =
        tokens.drop (start + chunk_overlap) := by
  intro fuel
  induction fuel with
  | zero =>
    intro start idx hf
    simp only [chunkGo, List.map_nil, List.flatten_nil]
    exact (List.drop_eq_nil_of_le (by omega)).symm
  | succ n ih =>
    intro start idx hf
    by_cases hs : start < tokens.length
    · simp only [chunkGo, if_pos hs, List.map_cons, List.flatten_cons]
      rw [ih (start + (chunk_size - chunk_overlap)) (idx + 1) (by omega)]
      have e1 : start + (chunk_size - chunk_overlap) + chunk_overlap =
          start + chunk_size := by omega
      rw [e1, List.drop_take, List.drop_drop]
      have hX : (tokens.drop (start + chunk_overlap)).drop
          (chunk_size - chunk_overlap) = tokens.drop (start + chunk_size) := by
        rw [List.drop_drop]
        congr 1
        omega
      rw [← hX]
      exact List.take_append_drop _ _
    · simp only [chunkGo, if_neg hs, List.map_nil, List.flatten_nil]
      exact (List.drop_eq_nil_of_le (by omega)).symm

/-- C3 (amended): for `chunk_overlap < chunk_size` the chunker emits the
windows starting at `0, step, 2*step, ...` (`step = chunk_size -
chunk_overlap`) while the start is inside the token sequence;
`chunk_index` counts `0, 1, 2, ...`; every chunk (in particular the
last) holds at most `chunk_size` tokens; dropping the declared overlap
from each later chunk and concatenating recovers the token sequence
exactly once; the junction tokens of consecutive chunks agree, and they
number exactly `chunk_overlap` whenever the earlier chunk is full-size —
a truncated earlier chunk may share fewer (the original claim's
unconditional exact-overlap clause fails, see the counterexample). -/
theorem chunk_tokens_tiling_amended (chunk_size chunk_overlap : Nat)
    (tokens : List Nat) (hov : chunk_overlap < chunk_size)
    (cs : List TokenChunk)
    (hcs : cs = chunk_tokens chunk_size chunk_overlap tokens) :
    cs.map (·.chunk_index) = List.range cs.length ∧
    (∀ k, k < cs.length ↔
      k * (chunk_size - chunk_overlap) < tokens.length) ∧
    (∀ k, k * (chunk_size - chunk_overlap) < tokens.length →
      cs.getD k ⟨0, []⟩ = ⟨k, (tokens.drop
        (k * (chunk_size - chunk_overlap))).take chunk_size⟩) ∧
    (∀ c ∈ cs, c.toks.length ≤ chunk_size) ∧
    reassemble chunk_overlap cs = tokens ∧
    (∀ k, k + 1 < cs.length →
      (cs.getD k ⟨0, []⟩).toks.drop (chunk_size - chunk_overlap) =
        (cs.getD (k + 1) ⟨0, []⟩).toks.take chunk_overlap) ∧
    (∀ k, k + 1 < cs.length →
      (cs.getD k ⟨0, []⟩).toks.length = chunk_size →
      overlapsExactly (cs.getD k ⟨0, []⟩) (cs.getD (k + 1) ⟨0, []⟩)
        chunk_overlap) := by
  subst hcs
  have hfuel : tokens.length ≤ 0 + tokens.length := by omega
  have hiff := fun k =>
    chunkGo_length_iff chunk_size chunk_overlap tokens hov
      tokens.length 0 0 k hfuel
  have hgetD : ∀ k, k * (chunk_size - chunk_overlap) < tokens.length →
      (chunk_tokens chunk_size chunk_overlap tokens).getD k ⟨0, []⟩ =
        ⟨k, (tokens.drop
          (k * (chunk_size - chunk_overlap))).take chunk_size⟩ := by
    intro k hk
    have := chunkGo_getD chunk_size chunk_overlap tokens hov
      tokens.length 0 0 k hfuel (by simpa using hk)
    simpa [chunk_tokens] using this
  have hjun : ∀ k, k + 1 < (chunk_tokens chunk_size chunk_overlap
      tokens).length →
      ((chunk_tokens chunk_size chunk_overlap tokens).getD k
        ⟨0, []⟩).toks.drop (chunk_size - chunk_overlap) =
      ((chunk_tokens chunk_size chunk_overlap tokens).getD (k + 1)
        ⟨0, []⟩).toks.take chunk_overlap := by
    intro k hk1
    have h2 : 0 + (k + 1) * (chunk_size - chunk_overlap) < tokens.length :=
      (hiff (k + 1)).mp hk1
    have h1 : k * (chunk_size - chunk_overlap) < tokens.length := by
      rw [Nat.succ_mul] at h2
      generalize k * (chunk_size - chunk_overlap) = p at h2 ⊢
      omega
    rw [hgetD k h1, hgetD (k + 1) (by simpa using h2)]
    have esub : chunk_size - (chunk_size - chunk_overlap) =
        chunk_overlap := by omega
    have emul : k * (chunk_size - chunk_overlap) +
        (chunk_size - chunk_overlap) =
        (k + 1) * (chunk_size - chunk_overlap) := by
      rw [Nat.succ_mul]
    have emin : min chunk_overlap chunk_size = chunk_overlap :=
      min_eq_left (le_of_lt hov)
    show ((tokens.drop (k * (chunk_size - chunk_overlap))).take
        chunk_size).drop (chunk_size - chunk_overlap) =
      ((tokens.drop ((k + 1) * (chunk_size - chunk_overlap))).take
        chunk_size).take chunk_overlap
    rw [List.drop_take, List.drop_drop, esub, emul, List.take_take, emin]
  refine ⟨?_, ?_, hgetD, ?_, ?_, hjun, ?_⟩
  · have := chunkGo_map_index chunk_size chunk_overlap tokens
      tokens.length 0 0
    simpa [chunk_tokens, List.range_eq_range'] using this
  · intro k
    have := hiff k
    simpa using this
  · intro c hc
    exact chunkGo_toks_le chunk_size chunk_overlap tokens
      tokens.length 0 0 c hc
  · cases tokens with
    | nil => rfl
    | cons t ts =>
      have hstep : chunkGo chunk_size chunk_overlap (t :: ts)
          (t :: ts).length 0 0 =
          { chunk_index := 0, toks := ((t :: ts).drop 0).take chunk_size } ::
          chunkGo chunk_size chunk_overlap (t :: ts) ts.length
            (0 + (chunk_size - chunk_overlap)) (0 + 1) := by
        simp [chunkGo]
      show reassemble chunk_overlap
        (chunkGo chunk_size chunk_overlap (t :: ts)
          (t :: ts).length 0 0) = t :: ts
      rw [hstep]
      simp only [reassemble]
      rw [chunkGo_flatten_drop chunk_size chunk_overlap (t :: ts) hov
        ts.length (0 + (chunk_size - chunk_overlap)) (0 + 1)
        (by simp only [List.length_cons]; omega)]
      have e1 : 0 + (chunk_size - chunk_overlap) + chunk_overlap =
          chunk_size := by omega
      rw [e1]
      simp only [List.drop_zero]
      exact List.take_append_drop chunk_size (t :: ts)
  · intro k hk1 hfull
    have h2 : 0 + (k + 1) * (chunk_size - chunk_overlap) < tokens.length :=
      (hiff (k + 1)).mp hk1
    have h2' : (k + 1) * (chunk_size - chunk_overlap) < tokens.length := by
      simpa using h2
    have h1 : k * (chunk_size - chunk_overlap) < tokens.length := by
      rw [Nat.succ_mul] at h2'
      generalize k * (chunk_size - chunk_overlap) = p at h2' ⊢
      omega
    constructor
    · rw [hfull]
      exact hjun k hk1
    · rw [hgetD k h1] at hfull
      rw [hgetD (k + 1) h2']
      simp only [List.length_take, List.length_drop] at hfull ⊢
      rw [Nat.succ_mul] at *
      generalize k * (chunk_size - chunk_overlap) = p at *
      omega

/-- Witness for C3 (amended) at `chunk_size = 5`, `chunk_overlap = 3`
and 8 tokens: the reassembly with declared overlaps recovers the token
sequence. -/
theorem chunk_tokens_tiling_amended_witness :
    reassemble 3 (chunk_tokens 5 3 (List.range 8)) = List.range 8 :=
  (chunk_tokens_tiling_amended 5 3 (List.range 8) (by decide) _
    rfl).2.2.2.2.1

/-- Counterexample for C3: with `chunk_size = 5`, `chunk_overlap = 3` and
8 tokens the emitted windows are `[0..4], [2..6], [4..7], [6,7]`; the
final pair of consecutive chunks shares only 2 tokens, not
`chunk_overlap = 3`, refuting the claim's unconditional exact-overlap
clause. -/
theorem chunk_tokens_exact_overlap_cex :
    (chunk_tokens 5 3 (List.range 8)).map (fun c => c.toks) =
      [[0, 1, 2, 3, 4], [2, 3, 4, 5, 6], [4, 5, 6, 7], [6, 7]] ∧
    2 + 1 < (chunk_tokens 5 3 (List.range 8)).length ∧
    ¬ overlapsExactly ((chunk_tokens 5 3 (List.range 8)).getD 2 ⟨0, []⟩)
      ((chunk_tokens 5 3 (List.range 8)).getD 3 ⟨0, []⟩) 3 := by
  simp only [overlapsExactly]
  decide

/-! ### C4: retrieval ordering, boosting and ranks -/

/-- Processing preserves the number of hits. -/
theorem processHits_length : ∀ (hits : List Hit) (i : Nat),
    (processHits hits i).length = hits.length := by
  intro hits
  induction hits with
  | nil => intro i; rfl
  | cons h t ih => intro i; simp [processHits, ih]

/-- Processed hits carry consecutive ranks starting at `i`. -/
theorem processHits_map_rank : ∀ (hits : List Hit) (i : Nat),
    (processHits hits i).map (·.rank) = List.range' i hits.length := by
  intro hits
  induction hits with
  | nil => intro i; rfl
  | cons h t ih =>
    intro i
    simp only [processHits, List.map_cons, List.length_cons,
      List.range'_succ]
    rw [ih]

/-- Every processed chunk's similarity is `1 - distance` of some hit. -/
theorem processHits_mem : ∀ (hits : List Hit) (i : Nat) (c : RChunk),
    c ∈ processHits hits i →
    ∃ h ∈ hits, c.similarity = 1 - h.distance := by
  intro hits
  induction hits with
  | nil =>
    intro i c hc
    simp [processHits] at hc
  | cons h t ih =>
    intro i c hc
    simp only [processHits, List.mem_cons] at hc
    rcases hc with hc | hc
    · exact ⟨h, List.mem_cons_self h t, by rw [hc]⟩
    · obtain ⟨h', hh', hs⟩ := ih (i + 1) c hc
      exact ⟨h', List.mem_cons_of_mem h hh', hs⟩

/-- Hits in ascending distance order process into chunks in descending
similarity order. -/
theorem processHits_pairwise : ∀ (hits : List Hit) (i : Nat),
    hits.Pairwise (fun a b => a.distance ≤ b.distance) →
    (processHits hits i).Pairwise (fun a b => b.similarity ≤ a.similarity)
    := by
  intro hits
  induction hits with
  | nil => intro i _; simp [processHits]
  | cons h t ih =>
    intro i hp
    rw [List.pairwise_cons] at hp
    obtain ⟨hd, ht⟩ := hp
    simp only [processHits]
    rw [List.pairwise_cons]
    refine ⟨?_, ih (i + 1) ht⟩
    intro c hc
    obtain ⟨h', hh', hsim⟩ := processHits_mem t (i + 1) c hc
    rw [hsim]
    show (1 : ℚ) - h'.distance ≤ 1 - h.distance
    exact sub_le_sub_left (hd h' hh') 1

/-- Rank reassignment preserves the number of chunks. -/
theorem assignRanks_length : ∀ (l : List RChunk) (i : Nat),
    (assignRanks l i).length = l.length := by
  intro l
  induction l with
  | nil => intro i; rfl
  | cons c t ih => intro i; simp [assignRanks, ih]

/-- Reassigned ranks are consecutive starting at `i`. -/
theorem assignRanks_map_rank : ∀ (l : List RChunk) (i : Nat),
    (assignRanks l i).map (·.rank) = List.range' i l.length := by
  intro l
  induction l with
  | nil => intro i; rfl
  | cons c t ih =>
    intro i
    simp only [assignRanks, List.map_cons, List.length_cons,
      List.range'_succ]
    rw [ih]

/-- Rank reassignment does not change the sort keys. -/
theorem assignRanks_map_bs : ∀ (l : List RChunk) (i : Nat),
    (assignRanks l i).map bsKey = l.map bsKey := by
  intro l
  induction l with
  | nil => intro i; rfl
  | cons c t ih =>
    intro i
    simp only [assignRanks, List.map_cons]
    rw [ih]
    rfl

/-- Every reassigned chunk keeps the score and metadata fields of a
chunk of the input. -/
theorem assignRanks_mem : ∀ (l : List RChunk) (i : Nat) (c : RChunk),
    c ∈ assignRanks l i →
    ∃ c' ∈ l, c.boosted_similarity = c'.boosted_similarity ∧
      c.similarity = c'.similarity ∧ c.metadata = c'.metadata := by
  intro l
  induction l with
  | nil =>
    intro i c hc
    simp [assignRanks] at hc
  | cons a t ih =>
    intro i c hc
    simp only [assignRanks, List.mem_cons] at hc
    rcases hc with hc | hc
    · exact ⟨a, List.mem_cons_self a t, by rw [hc], by rw [hc], by rw [hc]⟩
    · obtain ⟨c', hc', h1, h2, h3⟩ := ih (i + 1) c hc
      exact ⟨c', List.mem_cons_of_mem a hc', h1, h2, h3⟩

/-- A boosted chunk satisfies the boosted-similarity equation of the
spec: `similarity × priority_weight × trust_weight`. -/
theorem boostChunk_formula (c : RChunk) :
    (boostChunk c).boosted_similarity = some ((boostChunk c).similarity *
      priority_weight ((boostChunk c).metadata.priority.getD
        "normal".toList) *
      (if (boostChunk c).metadata.trusted.getD true then 11 / 10 else 1))
    := by
  simp only [boostChunk]
  rw [mul_assoc]

/-- Every chunk produced by `_apply_priority_boost` satisfies the
boosted-similarity equation. -/
theorem apply_priority_boost_mem (chunks : List RChunk) (c : RChunk)
    (hc : c ∈ apply_priority_boost chunks) :
    c.boosted_similarity = some (c.similarity *
      priority_weight (c.metadata.priority.getD "normal".toList) *
      (if c.metadata.trusted.getD true then 11 / 10 else 1)) := by
  simp only [apply_priority_boost] at hc
  obtain ⟨c', hc', h1, h2, h3⟩ := assignRanks_mem _ 0 c hc
  have hmem : c' ∈ (chunks.map boostChunk).mergeSort
      fun a b => decide (bsKey b ≤ bsKey a) := hc'
  have hmem2 : c' ∈ chunks.map boostChunk :=
    (List.mergeSort_perm (chunks.map boostChunk) _).mem_iff.mp hmem
  obtain ⟨orig, _, horig⟩ := List.mem_map.mp hmem2
  have hform := boostChunk_formula orig
  rw [horig] at hform
  rw [h1, h2, h3]
  exact hform

/-- The output of `_apply_priority_boost` is sorted descending by the
boosted score. -/
theorem apply_priority_boost_sorted (chunks : List RChunk) :
    (apply_priority_boost chunks).Pairwise
      (fun a b => bsKey b ≤ bsKey a) := by
  have htrans : ∀ (a b c : RChunk),
      (fun a b => decide (bsKey b ≤ bsKey a)) a b = true →
      (fun a b => decide (bsKey b ≤ bsKey a)) b c = true →
      (fun a b => decide (bsKey b ≤ bsKey a)) a c = true := by
    intro a b c h1 h2
    simp only [decide_eq_true_eq] at h1 h2 ⊢
    exact le_trans h2 h1
  have htotal : ∀ (a b : RChunk),
      ((fun a b => decide (bsKey b ≤ bsKey a)) a b ||
        (fun a b => decide (bsKey b ≤ bsKey a)) b a) = true := by
    intro a b
    simp only [Bool.or_eq_true, decide_eq_true_eq]
    exact le_total _ _
  have hs := List.sorted_mergeSort htrans htotal (chunks.map boostChunk)
  have hs' : ((chunks.map boostChunk).mergeSort
      fun a b => decide (bsKey b ≤ bsKey a)).Pairwise
      (fun a b => bsKey b ≤ bsKey a) := by
    refine hs.imp ?_
    intro a b h
    exact of_decide_eq_true h
  have h1 : (((chunks.map boostChunk).mergeSort
      fun a b => decide (bsKey b ≤ bsKey a)).map bsKey).Pairwise
      (fun x y : ℚ => y ≤ x) := List.pairwise_map.mpr hs'
  rw [← assignRanks_map_bs _ 0] at h1
  simp only [apply_priority_boost]
  exact List.pairwise_map.mp h1

/-- C4: retrieval returns at most `top_k` results; with boosting it
over-fetches a pool of `2*top_k` candidates, each result's
`boosted_similarity` equals `similarity × priority_weight × (1.1 if
trusted)` with weights rubric 1.3 / slides 1.2 / textbook 1.1 / normal
1.0, and results are in descending `boosted_similarity` order; without
boosting exactly `top_k` candidates are fetched and results are in
descending `similarity` order; in either case ranks are reassigned
`0..k-1` in the final order. -/
theorem retrieve_order_boost_rank (hits : List Hit) (top_k : Nat)
    (hsort : hits.Pairwise fun a b => a.distance ≤ b.distance) :
    (∀ b : Bool, (retrieve hits top_k b).length ≤ top_k) ∧
    retrieve hits top_k true = retrieve (hits.take (2 * top_k)) top_k true ∧
    (∀ c ∈ retrieve hits top_k true, c.boosted_similarity =
      some (c.similarity *
        priority_weight (c.metadata.priority.getD "normal".toList) *
        (if c.metadata.trusted.getD true then 11 / 10 else 1))) ∧
    (retrieve hits top_k true).Pairwise (fun a b => bsKey b ≤ bsKey a) ∧
    retrieve hits top_k false = processHits (hits.take top_k) 0 ∧
    (retrieve hits top_k false).Pairwise
      (fun a b => b.similarity ≤ a.similarity) ∧
    (∀ b : Bool, (retrieve hits top_k b).map (·.rank) =
      List.range (retrieve hits top_k b).length) := by
  have htrue : retrieve hits top_k true =
      (if !(processHits (hits.take (top_k * 2)) 0).isEmpty then
          apply_priority_boost (processHits (hits.take (top_k * 2)) 0)
        else processHits (hits.take (top_k * 2)) 0).take top_k := rfl
  have htrue2 : retrieve (hits.take (2 * top_k)) top_k true =
      (if !(processHits ((hits.take (2 * top_k)).take (top_k * 2))
            0).isEmpty then
          apply_priority_boost
            (processHits ((hits.take (2 * top_k)).take (top_k * 2)) 0)
        else processHits ((hits.take (2 * top_k)).take (top_k * 2))
          0).take top_k := rfl
  have hfalse : retrieve hits top_k false = processHits (hits.take top_k) 0
      := by
    have h0 : retrieve hits top_k false =
        (processHits (hits.take top_k) 0).take top_k := rfl
    rw [h0]
    exact List.take_of_length_le
      (by rw [processHits_length]; exact List.length_take_le _ _)
  have hf : (hits.take (2 * top_k)).take (top_k * 2) =
      hits.take (top_k * 2) := by
    rw [List.take_take]
    congr 1
    omega
  refine ⟨?_, ?_, ?_, ?_, hfalse, ?_, ?_⟩
  · intro b
    cases b
    · rw [hfalse, processHits_length]
      exact List.length_take_le _ _
    · rw [htrue]
      exact List.length_take_le _ _
  · rw [htrue, htrue2, hf]
  · intro c hc
    rw [htrue] at hc
    cases hemp : (processHits (hits.take (top_k * 2)) 0).isEmpty
    · have hcond : (!(processHits (hits.take (top_k * 2)) 0).isEmpty)
          = true := by rw [hemp]; rfl
      rw [if_pos hcond] at hc
      exact apply_priority_boost_mem _ c
        (List.Sublist.mem hc (List.take_sublist _ _))
    · rw [List.isEmpty_iff.mp hemp] at hc
      simp at hc
  · rw [htrue]
    cases hemp : (processHits (hits.take (top_k * 2)) 0).isEmpty
    · simp only [Bool.not_false, eq_self_iff_true, if_true]
      exact List.Pairwise.sublist (List.take_sublist _ _)
        (apply_priority_boost_sorted _)
    · rw [List.isEmpty_iff.mp hemp]
      simp
  · rw [hfalse]
    exact processHits_pairwise _ 0
      (List.Pairwise.sublist (List.take_sublist _ _) hsort)
  · intro b
    cases b
    · rw [hfalse, processHits_map_rank, ← List.range_eq_range',
        processHits_length]
    · rw [htrue]
      cases hemp : (processHits (hits.take (top_k * 2)) 0).isEmpty
      · simp only [Bool.not_false, eq_self_iff_true, if_true]
        simp only [apply_priority_boost]
        rw [List.map_take, assignRanks_map_rank, ← List.range_eq_range',
          List.take_range, List.length_take, assignRanks_length]
      · rw [List.isEmpty_iff.mp hemp]
        simp

/-- Witness for C4: two hits in ascending distance order, boosted
retrieval with `top_k = 1` returns at most one result. -/
theorem retrieve_order_boost_rank_witness :
    (retrieve
      [⟨"c1".toList, "text one".toList,
          ⟨none, none, some "rubric".toList, some true⟩, 1 / 10⟩,
        ⟨"c2".toList, "text two".toList, ⟨none, none, none, none⟩,
          2 / 10⟩] 1 true).length ≤ 1 := by
  have h := retrieve_order_boost_rank
    [⟨"c1".toList, "text one".toList,
        ⟨none, none, some "rubric".toList, some true⟩, 1 / 10⟩,
      ⟨"c2".toList, "text two".toList, ⟨none, none, none, none⟩,
        2 / 10⟩] 1
    (by
      simp [List.pairwise_cons]
      norm_num)
  exact h.1 true

end GPAI
